import Mathlib

/-!
Verification of the PriorityExpiryCache repository against its design
specification.

The repository's only Go source file, `src/Cache.go`, is an interview
stub: `NewCache` and `SetMaxItems` manage the `maxItems` field, `Get`
always returns nil, `Set` only calls `evictItems`, and `evictItems` has
an empty body.  The `Stub` namespace below embeds that file exactly as
written.

The specification, however, describes the full cache engine (key index,
expiry min-heap, priority tiers with per-tier LRU lists, two-phase
eviction).  That engine's code is absent from the repository, so the
`Spec` namespace models it from the specification's own words (sections
3, 4 and 4.4 of the design document); claims about the engine are
settled against that model.
-/

namespace Stub

/-- Embedding of the Go struct `PriorityExpiryCache` from `src/Cache.go`:
its only field is `maxItems int`. -/
structure PriorityExpiryCache where
  maxItems : Int
deriving DecidableEq, Repr

/-- Embedding of `NewCache` from `src/Cache.go`. -/
def NewCache (maxItems : Int) : PriorityExpiryCache :=
  ⟨maxItems⟩

/-- Embedding of `Get` from `src/Cache.go`: the stub body is `return nil`,
modelled as `none` (the Go `interface{}` payload is a type parameter). -/
def Get {α : Type} (_c : PriorityExpiryCache) (_key : String) : Option α :=
  none

/-- Embedding of `evictItems` from `src/Cache.go`: the body is empty, so the
receiver is unchanged. -/
def evictItems (c : PriorityExpiryCache) : PriorityExpiryCache :=
  c

/-- Embedding of `Set` from `src/Cache.go`: the body only calls
`c.evictItems()` (Go `time.Time` is modelled as an integer timestamp). -/
def Set {α : Type} (c : PriorityExpiryCache) (_key : String) (_value : α)
    (_priority : Int) (_expire : Int) : PriorityExpiryCache :=
  evictItems c

/-- Embedding of `SetMaxItems` from `src/Cache.go`: assign `maxItems`, then
call `c.evictItems()`. -/
def SetMaxItems (c : PriorityExpiryCache) (maxItems : Int) : PriorityExpiryCache :=
  evictItems { c with maxItems := maxItems }

end Stub

namespace Spec

/-- Modelled from the spec (§3 "Entry"): one cache slot holding a key, an
opaque payload (modelled as `Nat`), an integer priority and an absolute
expiry timestamp (modelled as `Int`). -/
structure Entry where
  key : String
  value : Nat
  priority : Int
  expireAt : Int
deriving DecidableEq, Repr

/-- Modelled from the spec (§3 "Priority Tier Table"): a tier is a priority
value together with its LRU list, head = most-recently-used, tail =
least-recently-used. -/
abbrev Tier := Int × List Entry

/-- Modelled from the spec (§3): the cache state is the capacity plus the
priority tier table.  The key index and the expiry heap hold only
positional back-references, never independent copies, so they are
functions of the tier table and are modelled as derived views below. -/
structure PECache where
  maxItems : Int
  tiers : List Tier
deriving DecidableEq, Repr

/-- The entries stored in a tier table, in table order (front of each tier
first). -/
def entriesT (ts : List Tier) : List Entry :=
  (ts.map Prod.snd).flatten

/-- All live entries, in tier-table order (each tier front = MRU). -/
def allEntries (c : PECache) : List Entry :=
  entriesT c.tiers

/-- The key-uniqueness invariant of the key index (§3): exactly one live
entry exists per key. -/
def keysNodup (c : PECache) : Prop :=
  ((allEntries c).map Entry.key).Nodup

instance (c : PECache) : Decidable (keysNodup c) := by
  unfold keysNodup; infer_instance

/-- Modelled from the spec: `size()` is the number of live entries. -/
def PECache.size (c : PECache) : Nat :=
  (allEntries c).length

/-- Modelled from the spec (§4.1 Key Index): `lookup(key) -> Entry?`. -/
def findEntry (c : PECache) (k : String) : Option Entry :=
  (allEntries c).find? (fun e => e.key == k)

/-- Whether the key index knows the key. -/
def PECache.hasKey (c : PECache) (k : String) : Bool :=
  (findEntry c k).isSome

/-- The LRU list of the tier for priority `p`, if that tier record exists. -/
def tierOf (c : PECache) (p : Int) : Option (List Entry) :=
  (c.tiers.find? (fun t => t.1 == p)).map Prod.snd

/-- Modelled from the spec (§3, §4.3 `remove`): unlink the entry with the
given key from its tier's list, destroying the tier record if it becomes
empty; a no-op when the key is absent. -/
def removeFromTiers (k : String) : List Tier → List Tier
  | [] => []
  | (p, es) :: rest =>
    if es.any (fun e => e.key == k) then
      let es' := es.eraseP (fun e => e.key == k)
      if es'.isEmpty then rest else (p, es') :: rest
    else
      (p, es) :: removeFromTiers k rest

/-- Modelled from the spec (§4.3 `touch`): move the entry with the given key
to the front of its own tier's LRU list; tier membership unchanged. -/
def touchInTiers (k : String) : List Tier → List Tier
  | [] => []
  | (p, es) :: rest =>
    match es.find? (fun e => e.key == k) with
    | some e => (p, e :: es.eraseP (fun x => x.key == k)) :: rest
    | none => (p, es) :: touchInTiers k rest

/-- Modelled from the spec (§4.3 `upsert`, insertion half): insert the entry
at the front of its priority's tier list, creating the tier record if
absent. -/
def insertFront (e : Entry) : List Tier → List Tier
  | [] => [(e.priority, [e])]
  | (p, es) :: rest =>
    if p == e.priority then (p, e :: es) :: rest
    else (p, es) :: insertFront e rest

/-- Modelled from the spec (§4.2 `peekMin`): the entry with the least
`expireAt` among all live entries (ties broken arbitrarily per spec; the
model keeps the first in scan order). -/
def heapPeekMin (c : PECache) : Option Entry :=
  match allEntries c with
  | [] => none
  | e :: es => some (es.foldl (fun m x => if x.expireAt < m.expireAt then x else m) e)

/-- Modelled from the spec (§4.3 `victimOfLowestTier`): the tail
(least-recently-used entry) of the LRU list of the lowest active
priority tier. -/
def victimOfLowestTier (c : PECache) : Option Entry :=
  match c.tiers.filter (fun t => !t.2.isEmpty) with
  | [] => none
  | t :: rest => (rest.foldl (fun m x => if x.1 < m.1 then x else m) t).2.getLast?

/-- Modelled from the spec (§4.4 `evictItems`, one loop iteration): peek the
expiry-heap min; if it is expired at `now`, evict it (expiry takes
precedence over the priority/LRU policy); else evict the
least-recently-used entry of the lowest active priority tier.  Eviction
removes the entry from every structure at once. -/
def evictOne (c : PECache) (now : Int) : PECache :=
  match heapPeekMin c with
  | none => c
  | some e =>
    if e.expireAt ≤ now then
      ⟨c.maxItems, removeFromTiers e.key c.tiers⟩
    else
      match victimOfLowestTier c with
      | none => c
      | some v => ⟨c.maxItems, removeFromTiers v.key c.tiers⟩

/-- Modelled from the spec (§4.4 `evictItems`): loop while
`size() > maxItems`, evicting one entry per iteration.  Each iteration
removes exactly one live entry, so `size` steps of fuel suffice. -/
def evictLoop : Nat → PECache → Int → PECache
  | 0, c, _ => c
  | n + 1, c, now =>
    if (c.size : Int) ≤ c.maxItems then c
    else evictLoop n (evictOne c now) now

/-- Modelled from the spec (§4.4 `evictItems`). -/
def PECache.evictItems (c : PECache) (now : Int) : PECache :=
  evictLoop c.size c now

/-- Modelled from the spec (§4.4 `get(key, now)`): miss → not found; hit but
`expireAt ≤ now` → evict the entry and report not found (lazy expiry on
read); hit and live → touch and return the value.  Returns the result
together with the post-state. -/
def PECache.get (c : PECache) (k : String) (now : Int) : Option Nat × PECache :=
  match findEntry c k with
  | none => (none, c)
  | some e =>
    if e.expireAt ≤ now then
      (none, ⟨c.maxItems, removeFromTiers k c.tiers⟩)
    else
      (some e.value, ⟨c.maxItems, touchInTiers k c.tiers⟩)

/-- Modelled from the spec (§4.4 `set`): if the key exists, update
value/expireAt in place and upsert with the new priority (unlink from the
old tier, relink at the front of the new tier); otherwise create a new
entry and insert it into every structure.  Then invoke `evictItems(now)`. -/
def PECache.set (c : PECache) (k : String) (v : Nat) (p : Int) (t : Int)
    (now : Int) : PECache :=
  let e : Entry := ⟨k, v, p, t⟩
  let c' : PECache :=
    match findEntry c k with
    | some _ => ⟨c.maxItems, insertFront e (removeFromTiers k c.tiers)⟩
    | none => ⟨c.maxItems, insertFront e c.tiers⟩
  c'.evictItems now

/-- Modelled from the spec (§4.4 `resize` / §6 `setMaxItems`): mutate the
capacity and immediately trigger eviction to the new bound, at the
current time. -/
def PECache.setMaxItems (c : PECache) (m : Int) (now : Int) : PECache :=
  PECache.evictItems ⟨m, c.tiers⟩ now

/-- Modelled from the spec (§6 `new`): a fresh cache with the given
capacity and no entries. -/
def newCache (m : Int) : PECache :=
  ⟨m, []⟩

/-- One public mutating call, for stating properties of call sequences. -/
inductive Call where
  | set (k : String) (v : Nat) (p : Int) (t : Int) (now : Int)
  | setMaxItems (m : Int) (now : Int)
deriving DecidableEq, Repr

/-- Apply one call to a cache state. -/
def applyCall (c : PECache) : Call → PECache
  | Call.set k v p t now => c.set k v p t now
  | Call.setMaxItems m now => c.setMaxItems m now

/-- Run a sequence of calls from a given state. -/
def runCalls (c : PECache) (cs : List Call) : PECache :=
  cs.foldl applyCall c

end Spec

/-! ## Properties of the stub as written (`src/Cache.go`) -/

/-- Claim C8: on every cache state and key, the stub's `Get` returns nil
(`none`); it never returns a previously stored value. -/
theorem stub_get_always_none {α : Type} (c : Stub.PriorityExpiryCache) (k : String) :
    @Stub.Get α c k = none :=
  rfl

/-- Claim C9: the stub's `Set` is a no-op on the cache state — after it
returns, every field (in particular `maxItems`, the only field) is
unchanged; `evictItems` likewise changes nothing, and `Get` is a pure
reader of the state. -/
theorem stub_set_noop {α : Type} (c : Stub.PriorityExpiryCache) (k : String)
    (v : α) (p t : Int) :
    Stub.Set c k v p t = c ∧ Stub.evictItems c = c :=
  ⟨rfl, rfl⟩

/-- Claim C10: `SetMaxItems` is last-write-wins and idempotent — after
`SetMaxItems b` the `maxItems` field is exactly `b` regardless of prior
state, `SetMaxItems a` then `SetMaxItems b` equals `SetMaxItems b` alone,
repeating `SetMaxItems b` is idempotent, and `NewCache b` starts in the
same state. -/
theorem stub_setMaxItems_last_write_wins (c : Stub.PriorityExpiryCache) (a b : Int) :
    (Stub.SetMaxItems c b).maxItems = b ∧
    Stub.SetMaxItems (Stub.SetMaxItems c a) b = Stub.SetMaxItems c b ∧
    Stub.SetMaxItems (Stub.SetMaxItems c b) b = Stub.SetMaxItems c b ∧
    Stub.SetMaxItems c b = Stub.NewCache b ∧
    (Stub.NewCache b).maxItems = b :=
  ⟨rfl, rfl, rfl, rfl, rfl⟩

/-! ## Structural lemmas for the spec-modelled engine -/

namespace Spec

theorem entriesT_nil : entriesT [] = [] := rfl

theorem entriesT_cons (p : Int) (es : List Entry) (rest : List Tier) :
    entriesT ((p, es) :: rest) = es ++ entriesT rest := by
  simp [entriesT]

theorem erasePAppendLeft (pred : Entry → Bool) (a : Entry) (pa : pred a)
    (l1 l2 : List Entry) (h : a ∈ l1) :
    (l1 ++ l2).eraseP pred = l1.eraseP pred ++ l2 :=
  List.eraseP_append_left pa l2 h

/-- Removing a key from the tier table erases exactly the first entry
carrying that key from the flattened entry list. -/
theorem entriesT_removeFromTiers (k : String) (ts : List Tier) :
    entriesT (removeFromTiers k ts) = (entriesT ts).eraseP (fun e => e.key == k) := by
  induction ts with
  | nil => simp [removeFromTiers, entriesT]
  | cons t rest ih =>
    obtain ⟨p, es⟩ := t
    rw [removeFromTiers]
    by_cases h : es.any (fun e => e.key == k)
    · rw [if_pos h]
      obtain ⟨a, ha, hpa⟩ := List.any_eq_true.mp h
      rw [entriesT_cons, erasePAppendLeft (fun e => e.key == k) a hpa es (entriesT rest) ha]
      by_cases hemp : (es.eraseP (fun e => e.key == k)).isEmpty
      · rw [if_pos hemp]
        rw [List.isEmpty_iff] at hemp
        rw [hemp, List.nil_append]
      · rw [if_neg hemp, entriesT_cons]
    · rw [if_neg h]
      have hall : ∀ b ∈ es, ¬((fun e => e.key == k) b = true) := by
        intro b hb hcon
        exact h (List.any_eq_true.mpr ⟨b, hb, hcon⟩)
      rw [entriesT_cons, entriesT_cons, List.eraseP_append_right (entriesT rest) hall, ih]

end Spec

namespace Spec

/-- A fold that at each step keeps either the accumulator or the new element
ends on the seed or a list element. -/
theorem foldl_pick_mem {α : Type} (f : α → α → α)
    (hf : ∀ m x, f m x = m ∨ f m x = x) :
    ∀ (l : List α) (e : α), l.foldl f e ∈ e :: l := by
  intro l
  induction l with
  | nil => intro e; simp
  | cons x xs ih =>
    intro e
    have hmem := ih (f e x)
    rw [List.foldl_cons]
    rcases List.mem_cons.mp hmem with hh | hh
    · rcases hf e x with hfx | hfx <;> rw [hh, hfx] <;> simp
    · simp [List.mem_cons, hh]

theorem minExp_pick (m x : Entry) :
    (if x.expireAt < m.expireAt then x else m) = m ∨
    (if x.expireAt < m.expireAt then x else m) = x := by
  by_cases h : x.expireAt < m.expireAt <;> simp [h]

theorem foldl_minExp_mem (l : List Entry) (e : Entry) :
    l.foldl (fun m x => if x.expireAt < m.expireAt then x else m) e ∈ e :: l :=
  foldl_pick_mem _ minExp_pick l e

theorem foldl_minExp_le (l : List Entry) :
    ∀ (e : Entry) (x : Entry), x ∈ e :: l →
      (l.foldl (fun m y => if y.expireAt < m.expireAt then y else m) e).expireAt ≤ x.expireAt := by
  induction l with
  | nil =>
    intro e x hx
    rcases List.mem_cons.mp hx with h | h
    · subst h; simp
    · simp at h
  | cons y ys ih =>
    intro e x hx
    rw [List.foldl_cons]
    have hinit : (if y.expireAt < e.expireAt then y else e).expireAt ≤ e.expireAt ∧
        (if y.expireAt < e.expireAt then y else e).expireAt ≤ y.expireAt := by
      by_cases h : y.expireAt < e.expireAt <;> simp [h] <;> omega
    rcases List.mem_cons.mp hx with h | h
    · subst h
      exact le_trans (ih _ _ (List.mem_cons_self _ _)) hinit.1
    · rcases List.mem_cons.mp h with h2 | h2
      · subst h2
        exact le_trans (ih _ _ (List.mem_cons_self _ _)) hinit.2
      · exact ih _ _ (List.mem_cons.mpr (Or.inr h2))

theorem heapPeekMin_mem {c : PECache} {e : Entry} (h : heapPeekMin c = some e) :
    e ∈ allEntries c := by
  unfold heapPeekMin at h
  revert h
  cases hc : allEntries c with
  | nil => intro h; simp at h
  | cons a as =>
    intro h
    simp only [Option.some.injEq] at h
    rw [← h]
    exact foldl_minExp_mem as a

theorem heapPeekMin_le {c : PECache} {e : Entry} (h : heapPeekMin c = some e) :
    ∀ x ∈ allEntries c, e.expireAt ≤ x.expireAt := by
  unfold heapPeekMin at h
  revert h
  cases hc : allEntries c with
  | nil => intro h; simp at h
  | cons a as =>
    intro h x hx
    simp only [Option.some.injEq] at h
    rw [← h]
    exact foldl_minExp_le as a x hx

theorem heapPeekMin_of_ne_nil {c : PECache} (h : allEntries c ≠ []) :
    ∃ e, heapPeekMin c = some e := by
  unfold heapPeekMin
  cases hc : allEntries c with
  | nil => exact absurd hc h
  | cons a as => exact ⟨_, rfl⟩

theorem heapPeekMin_of_nil {c : PECache} (h : allEntries c = []) :
    heapPeekMin c = none := by
  unfold heapPeekMin
  rw [h]

end Spec

namespace Spec

theorem minTier_pick (m x : Tier) :
    (if x.1 < m.1 then x else m) = m ∨ (if x.1 < m.1 then x else m) = x := by
  by_cases h : x.1 < m.1 <;> simp [h]

theorem mem_entriesT_of_mem_tier {ts : List Tier} {t : Tier} {e : Entry}
    (ht : t ∈ ts) (he : e ∈ t.2) : e ∈ entriesT ts := by
  unfold entriesT
  rw [List.mem_flatten]
  exact ⟨t.2, List.mem_map_of_mem Prod.snd ht, he⟩

theorem victim_of_ne_nil {c : PECache} (h : allEntries c ≠ []) :
    ∃ v, victimOfLowestTier c = some v ∧ v ∈ allEntries c := by
  unfold victimOfLowestTier
  have hex : ∃ t ∈ c.tiers, ¬t.2.isEmpty := by
    by_contra hno
    push_neg at hno
    apply h
    unfold allEntries entriesT
    rw [List.flatten_eq_nil_iff]
    intro l hl
    rw [List.mem_map] at hl
    obtain ⟨t, ht, rfl⟩ := hl
    have := hno t ht
    rw [List.isEmpty_iff] at this
    exact this
  obtain ⟨t0, ht0, ht0ne⟩ := hex
  have hmemf : t0 ∈ c.tiers.filter (fun t => !t.2.isEmpty) := by
    rw [List.mem_filter]
    exact ⟨ht0, by simpa using ht0ne⟩
  revert hmemf
  cases hf : c.tiers.filter (fun t => !t.2.isEmpty) with
  | nil => intro hmemf; simp at hmemf
  | cons t rest =>
    intro hmemf
    have hbest : rest.foldl (fun m x => if x.1 < m.1 then x else m) t ∈ t :: rest :=
      foldl_pick_mem _ minTier_pick rest t
    rw [← hf] at hbest
    have hbt : (rest.foldl (fun m x => if x.1 < m.1 then x else m) t) ∈ c.tiers :=
      List.mem_of_mem_filter hbest
    have hbne : ¬(rest.foldl (fun m x => if x.1 < m.1 then x else m) t).2.isEmpty := by
      have := List.of_mem_filter hbest
      simpa using this
    rw [List.isEmpty_iff] at hbne
    have hv : (rest.foldl (fun m x => if x.1 < m.1 then x else m) t).2.getLast? =
        some ((rest.foldl (fun m x => if x.1 < m.1 then x else m) t).2.getLast hbne) :=
      List.getLast?_eq_getLast _ hbne
    refine ⟨_, hv, ?_⟩
    exact mem_entriesT_of_mem_tier hbt (List.getLast_mem hbne)

theorem size_removeFromTiers {ts : List Tier} {k : String} {e : Entry}
    (he : e ∈ entriesT ts) (hk : e.key = k) :
    (entriesT (removeFromTiers k ts)).length = (entriesT ts).length - 1 := by
  rw [entriesT_removeFromTiers]
  exact List.length_eraseP_of_mem he (by simp [hk])

theorem evictOne_maxItems (c : PECache) (now : Int) :
    (evictOne c now).maxItems = c.maxItems := by
  unfold evictOne
  cases heapPeekMin c with
  | none => rfl
  | some e =>
    by_cases h : e.expireAt ≤ now
    · simp [h]
    · simp only [h, if_false]
      cases victimOfLowestTier c <;> rfl

theorem evictOne_of_empty {c : PECache} (h : c.size = 0) (now : Int) :
    evictOne c now = c := by
  unfold PECache.size at h
  rw [List.length_eq_zero] at h
  unfold evictOne
  rw [heapPeekMin_of_nil h]

theorem size_evictOne {c : PECache} (h : c.size ≠ 0) (now : Int) :
    (evictOne c now).size = c.size - 1 := by
  have hne : allEntries c ≠ [] := by
    intro hn
    exact h (by simp [PECache.size, hn])
  obtain ⟨e, he⟩ := heapPeekMin_of_ne_nil hne
  have hem : e ∈ allEntries c := heapPeekMin_mem he
  have stepeq : evictOne c now =
      if e.expireAt ≤ now then (⟨c.maxItems, removeFromTiers e.key c.tiers⟩ : PECache)
      else
        match victimOfLowestTier c with
        | none => c
        | some v => ⟨c.maxItems, removeFromTiers v.key c.tiers⟩ := by
    unfold evictOne
    rw [he]
  rw [stepeq]
  by_cases hx : e.expireAt ≤ now
  · rw [if_pos hx]
    show (entriesT (removeFromTiers e.key c.tiers)).length = _
    exact size_removeFromTiers hem rfl
  · rw [if_neg hx]
    obtain ⟨v, hv, hvm⟩ := victim_of_ne_nil hne
    rw [hv]
    show (entriesT (removeFromTiers v.key c.tiers)).length = _
    exact size_removeFromTiers hvm rfl

end Spec

namespace Spec

theorem evictLoop_of_le {c : PECache} {now : Int} (n : Nat)
    (h : (c.size : Int) ≤ c.maxItems) : evictLoop n c now = c := by
  cases n with
  | zero => rfl
  | succ m => rw [evictLoop, if_pos h]

theorem evictItems_of_le {c : PECache} {now : Int}
    (h : (c.size : Int) ≤ c.maxItems) : c.evictItems now = c :=
  evictLoop_of_le _ h

theorem evictLoop_maxItems (n : Nat) (c : PECache) (now : Int) :
    (evictLoop n c now).maxItems = c.maxItems := by
  induction n generalizing c with
  | zero => rfl
  | succ m ih =>
    rw [evictLoop]
    by_cases h : (c.size : Int) ≤ c.maxItems
    · rw [if_pos h]
    · rw [if_neg h, ih, evictOne_maxItems]

theorem evictItems_maxItems (c : PECache) (now : Int) :
    (c.evictItems now).maxItems = c.maxItems :=
  evictLoop_maxItems _ c now

theorem evictLoop_size_le (n : Nat) (c : PECache) (now : Int)
    (h0 : 0 ≤ c.maxItems) (h : (c.size : Int) ≤ c.maxItems + n) :
    ((evictLoop n c now).size : Int) ≤ c.maxItems := by
  induction n generalizing c with
  | zero => simpa using h
  | succ m ih =>
    rw [evictLoop]
    by_cases hle : (c.size : Int) ≤ c.maxItems
    · rw [if_pos hle]; exact hle
    · rw [if_neg hle]
      have hpos : c.size ≠ 0 := by
        intro hz
        rw [hz] at hle
        exact hle (by exact_mod_cast h0)
      have hstep := size_evictOne hpos now
      have hmx := evictOne_maxItems c now
      have hsz : ((evictOne c now).size : Int) ≤ (evictOne c now).maxItems + m := by
        rw [hstep, hmx]
        have hge : 1 ≤ c.size := Nat.one_le_iff_ne_zero.mpr hpos
        push_cast [hge]
        push_cast at h
        omega
      have := ih (evictOne c now) (by rw [hmx]; exact h0) hsz
      rw [hmx] at this
      exact this

/-- After `evictItems`, the size is within the (non-negative) capacity. -/
theorem evictItems_size_le (c : PECache) (now : Int) (h0 : 0 ≤ c.maxItems) :
    ((c.evictItems now).size : Int) ≤ c.maxItems := by
  unfold PECache.evictItems
  exact evictLoop_size_le c.size c now h0 (by omega)

theorem evictLoop_drain (n : Nat) (c : PECache) (now : Int)
    (hm : c.maxItems ≤ 0) (h : c.size ≤ n) : (evictLoop n c now).size = 0 := by
  induction n generalizing c with
  | zero =>
    show c.size = 0
    omega
  | succ m ih =>
    rw [evictLoop]
    by_cases hle : (c.size : Int) ≤ c.maxItems
    · rw [if_pos hle]
      have : (c.size : Int) ≤ 0 := le_trans hle hm
      omega
    · rw [if_neg hle]
      by_cases hz : c.size = 0
      · rw [evictOne_of_empty hz]
        exact ih c hm (by omega)
      · have hstep := size_evictOne hz now
        have hmx := evictOne_maxItems c now
        exact ih (evictOne c now) (by rw [hmx]; exact hm) (by omega)

/-- With non-positive capacity, `evictItems` drains the cache entirely. -/
theorem evictItems_drain (c : PECache) (now : Int) (hm : c.maxItems ≤ 0) :
    (c.evictItems now).size = 0 :=
  evictLoop_drain c.size c now hm (le_refl _)

theorem set_maxItems_eq (c : PECache) (k : String) (v : Nat) (p t now : Int) :
    (c.set k v p t now).maxItems = c.maxItems := by
  unfold PECache.set
  cases findEntry c k <;> simp [evictItems_maxItems]

theorem setMaxItems_maxItems (c : PECache) (m now : Int) :
    (c.setMaxItems m now).maxItems = m := by
  unfold PECache.setMaxItems
  rw [evictItems_maxItems]

end Spec

namespace Spec

theorem set_of_found {c : PECache} {k : String} (e : Entry)
    (hfe : findEntry c k = some e) (v : Nat) (p t now : Int) :
    c.set k v p t now =
      PECache.evictItems ⟨c.maxItems, insertFront ⟨k, v, p, t⟩ (removeFromTiers k c.tiers)⟩ now := by
  unfold PECache.set
  rw [hfe]

theorem set_of_not_found {c : PECache} {k : String}
    (hfe : findEntry c k = none) (v : Nat) (p t now : Int) :
    c.set k v p t now =
      PECache.evictItems ⟨c.maxItems, insertFront ⟨k, v, p, t⟩ c.tiers⟩ now := by
  unfold PECache.set
  rw [hfe]

theorem applyCall_bound (c : PECache) (call : Call) :
    0 ≤ (applyCall c call).maxItems →
      ((applyCall c call).size : Int) ≤ (applyCall c call).maxItems := by
  cases call with
  | set k v p t now =>
    intro h0
    simp only [applyCall] at h0 ⊢
    cases hfe : findEntry c k with
    | some e =>
      rw [set_of_found e hfe] at h0 ⊢
      rw [evictItems_maxItems] at h0 ⊢
      exact evictItems_size_le _ now h0
    | none =>
      rw [set_of_not_found hfe] at h0 ⊢
      rw [evictItems_maxItems] at h0 ⊢
      exact evictItems_size_le _ now h0
  | setMaxItems m now =>
    intro h0
    simp only [applyCall, PECache.setMaxItems] at h0 ⊢
    rw [evictItems_maxItems] at h0 ⊢
    exact evictItems_size_le _ now h0

theorem runCalls_bound (calls : List Call) : ∀ c : PECache,
    (0 ≤ c.maxItems → (c.size : Int) ≤ c.maxItems) →
    0 ≤ (runCalls c calls).maxItems →
      ((runCalls c calls).size : Int) ≤ (runCalls c calls).maxItems := by
  induction calls with
  | nil => intro c hc; exact hc
  | cons a as ih =>
    intro c _
    show 0 ≤ (runCalls (applyCall c a) as).maxItems → _
    exact ih (applyCall c a) (applyCall_bound c a)

end Spec

/-- Claim C2: for every sequence of `set`/`setMaxItems` calls starting from a
freshly constructed cache, after any call returns the number of live
entries is at most `maxItems`, provided `maxItems ≥ 0`. -/
theorem spec_capacity_invariant (m0 : Int) (calls : List Spec.Call)
    (h0 : 0 ≤ (Spec.runCalls (Spec.newCache m0) calls).maxItems) :
    ((Spec.runCalls (Spec.newCache m0) calls).size : Int) ≤
      (Spec.runCalls (Spec.newCache m0) calls).maxItems :=
  Spec.runCalls_bound calls (Spec.newCache m0) (fun hm => by simpa using hm) h0

/-- Witness for C2 at a concrete input: capacity 1, two inserts. -/
theorem spec_capacity_invariant_witness :
    ((Spec.runCalls (Spec.newCache 1)
        [Spec.Call.set "a" 1 1 10 0, Spec.Call.set "b" 2 1 10 0]).size : Int) ≤
      (Spec.runCalls (Spec.newCache 1)
        [Spec.Call.set "a" 1 1 10 0, Spec.Call.set "b" 2 1 10 0]).maxItems :=
  spec_capacity_invariant 1 _ (by decide)

/-- Claim C7: non-positive capacity drains the cache — from any state, after
a `set` when `maxItems ≤ 0`, or after `setMaxItems m'` with `m' ≤ 0`
(which immediately triggers eviction to the new bound), the cache holds
zero live entries. -/
theorem spec_nonpositive_capacity_drains (c : Spec.PECache) (k : String) (v : Nat)
    (p t now m' now' : Int) :
    (c.maxItems ≤ 0 → (c.set k v p t now).size = 0) ∧
    (m' ≤ 0 → (c.setMaxItems m' now').size = 0) := by
  constructor
  · intro h
    cases hfe : Spec.findEntry c k with
    | some e =>
      rw [Spec.set_of_found e hfe]
      exact Spec.evictItems_drain _ now h
    | none =>
      rw [Spec.set_of_not_found hfe]
      exact Spec.evictItems_drain _ now h
  · intro h
    show (Spec.PECache.evictItems ⟨m', c.tiers⟩ now').size = 0
    exact Spec.evictItems_drain _ now' h

/-- Witness for C7 at a concrete input: a one-entry cache with capacity 0 is
drained by `set`, and `setMaxItems (-1)` drains a cache of capacity 3. -/
theorem spec_nonpositive_capacity_drains_witness :
    ((⟨0, [(1, [⟨"a", 5, 1, 10⟩])]⟩ : Spec.PECache).set "b" 6 2 20 0).size = 0 ∧
    ((⟨3, [(1, [⟨"a", 5, 1, 10⟩])]⟩ : Spec.PECache).setMaxItems (-1) 0).size = 0 :=
  ⟨(spec_nonpositive_capacity_drains ⟨0, [(1, [⟨"a", 5, 1, 10⟩])]⟩ "b" 6 2 20 0 (-1) 0).1
      (by decide),
   (spec_nonpositive_capacity_drains ⟨3, [(1, [⟨"a", 5, 1, 10⟩])]⟩ "b" 6 2 20 0 (-1) 0).2
      (by decide)⟩

namespace Spec

theorem key_inj {l : List Entry} (hnd : (l.map Entry.key).Nodup) {a b : Entry}
    (ha : a ∈ l) (hb : b ∈ l) (hk : a.key = b.key) : a = b :=
  List.inj_on_of_nodup_map hnd ha hb hk

theorem not_mem_eraseP_self {l : List Entry} (hnd : (l.map Entry.key).Nodup)
    {e : Entry} (he : e ∈ l) : e ∉ l.eraseP (fun x => x.key == e.key) := by
  intro hmem
  obtain ⟨a, l1, l2, hl1, hpa, hl, herased⟩ :=
    @List.exists_of_eraseP Entry (fun x => x.key == e.key) l e he (beq_self_eq_true e.key)
  rw [herased] at hmem
  rcases List.mem_append.mp hmem with hin1 | hin2
  · exact hl1 e hin1 (by simp)
  · have hak : a.key = e.key := by simpa using hpa
    have hmap : l.map Entry.key = l1.map Entry.key ++ a.key :: l2.map Entry.key := by
      rw [hl]; simp
    rw [hmap] at hnd
    have hsubl : (a.key :: l2.map Entry.key).Sublist
        (l1.map Entry.key ++ a.key :: l2.map Entry.key) :=
      List.sublist_append_right _ _
    have hcons : (a.key :: l2.map Entry.key).Nodup := hnd.sublist hsubl
    have hnotin : a.key ∉ l2.map Entry.key := (List.nodup_cons.mp hcons).1
    exact hnotin (hak ▸ List.mem_map_of_mem Entry.key hin2)

theorem mem_eraseP_of_key_ne {l : List Entry} {e : Entry} {k : String}
    (hk : e.key ≠ k) (he : e ∈ l) : e ∈ l.eraseP (fun x => x.key == k) :=
  (List.mem_eraseP_of_neg (by simp [hk])).mpr he

theorem evictOne_expired {c : PECache} {now : Int} {e : Entry}
    (he : heapPeekMin c = some e) (hx : e.expireAt ≤ now) :
    evictOne c now = ⟨c.maxItems, removeFromTiers e.key c.tiers⟩ := by
  have stepeq : evictOne c now =
      if e.expireAt ≤ now then (⟨c.maxItems, removeFromTiers e.key c.tiers⟩ : PECache)
      else
        match victimOfLowestTier c with
        | none => c
        | some v => ⟨c.maxItems, removeFromTiers v.key c.tiers⟩ := by
    unfold evictOne
    rw [he]
  rw [stepeq, if_pos hx]

theorem evictOne_not_expired {c : PECache} {now : Int}
    (h : ∀ x ∈ allEntries c, now < x.expireAt) {v : Entry}
    (hv : victimOfLowestTier c = some v) (hne : allEntries c ≠ []) :
    evictOne c now = ⟨c.maxItems, removeFromTiers v.key c.tiers⟩ := by
  obtain ⟨e, he⟩ := heapPeekMin_of_ne_nil hne
  have hee : now < e.expireAt := h e (heapPeekMin_mem he)
  have stepeq : evictOne c now =
      if e.expireAt ≤ now then (⟨c.maxItems, removeFromTiers e.key c.tiers⟩ : PECache)
      else
        match victimOfLowestTier c with
        | none => c
        | some w => ⟨c.maxItems, removeFromTiers w.key c.tiers⟩ := by
    unfold evictOne
    rw [he]
  rw [stepeq, if_neg (by omega), hv]

end Spec

/-- Claim C3: expiry precedence — when eviction must remove one item and the
cache holds an expired entry `e1` and an unexpired entry `e2` (keys
unique per the key-index invariant), a single eviction step removes an
expired entry, never `e2`; and when `e1` is the only expired entry, it is
exactly `e1` that is removed. -/
theorem spec_expiry_precedence (c : Spec.PECache) (now : Int) (e1 e2 : Spec.Entry)
    (hnd : Spec.keysNodup c)
    (_hsz : c.maxItems < (c.size : Int))
    (h1 : e1 ∈ Spec.allEntries c) (hexp : e1.expireAt ≤ now)
    (h2 : e2 ∈ Spec.allEntries c) (hlive : now < e2.expireAt) :
    (∃ e ∈ Spec.allEntries c, e.expireAt ≤ now ∧ e ∉ Spec.allEntries (Spec.evictOne c now)) ∧
    e2 ∈ Spec.allEntries (Spec.evictOne c now) ∧
    ((∀ x ∈ Spec.allEntries c, x.expireAt ≤ now → x = e1) →
      e1 ∉ Spec.allEntries (Spec.evictOne c now)) := by
  have hne : Spec.allEntries c ≠ [] := List.ne_nil_of_mem h1
  obtain ⟨em, hem⟩ := Spec.heapPeekMin_of_ne_nil hne
  have hmm : em ∈ Spec.allEntries c := Spec.heapPeekMin_mem hem
  have hemexp : em.expireAt ≤ now := le_trans (Spec.heapPeekMin_le hem e1 h1) hexp
  have hres : Spec.evictOne c now = ⟨c.maxItems, Spec.removeFromTiers em.key c.tiers⟩ :=
    Spec.evictOne_expired hem hemexp
  have hall : Spec.allEntries (Spec.evictOne c now) =
      (Spec.allEntries c).eraseP (fun x => x.key == em.key) := by
    rw [hres]
    exact Spec.entriesT_removeFromTiers em.key c.tiers
  have hnd' : ((Spec.allEntries c).map Spec.Entry.key).Nodup := hnd
  refine ⟨⟨em, hmm, hemexp, ?_⟩, ?_, ?_⟩
  · rw [hall]
    exact Spec.not_mem_eraseP_self hnd' hmm
  · rw [hall]
    have hkne : e2.key ≠ em.key := by
      intro hk
      have he2em : e2 = em := Spec.key_inj hnd' h2 hmm hk
      rw [he2em] at hlive
      omega
    exact Spec.mem_eraseP_of_key_ne hkne h2
  · intro huniq
    have heme1 : em = e1 := huniq em hmm hemexp
    rw [hall, ← heme1]
    exact Spec.not_mem_eraseP_self hnd' hmm

/-- Witness for C3 at a concrete input: tier 2 holds "a" expired at `now = 5`,
tier 1 (the lowest) holds the unexpired "b"; eviction removes "a". -/
theorem spec_expiry_precedence_witness :
    (∃ e ∈ Spec.allEntries ⟨1, [(1, [⟨"b", 0, 1, 100⟩]), (2, [⟨"a", 0, 2, 0⟩])]⟩,
        e.expireAt ≤ 5 ∧
        e ∉ Spec.allEntries
          (Spec.evictOne ⟨1, [(1, [⟨"b", 0, 1, 100⟩]), (2, [⟨"a", 0, 2, 0⟩])]⟩ 5)) ∧
    (⟨"b", 0, 1, 100⟩ : Spec.Entry) ∈ Spec.allEntries
        (Spec.evictOne ⟨1, [(1, [⟨"b", 0, 1, 100⟩]), (2, [⟨"a", 0, 2, 0⟩])]⟩ 5) ∧
    ((∀ x ∈ Spec.allEntries
          (⟨1, [(1, [⟨"b", 0, 1, 100⟩]), (2, [⟨"a", 0, 2, 0⟩])]⟩ : Spec.PECache),
        x.expireAt ≤ 5 → x = ⟨"a", 0, 2, 0⟩) →
      (⟨"a", 0, 2, 0⟩ : Spec.Entry) ∉ Spec.allEntries
        (Spec.evictOne ⟨1, [(1, [⟨"b", 0, 1, 100⟩]), (2, [⟨"a", 0, 2, 0⟩])]⟩ 5)) :=
  spec_expiry_precedence ⟨1, [(1, [⟨"b", 0, 1, 100⟩]), (2, [⟨"a", 0, 2, 0⟩])]⟩ 5
    ⟨"a", 0, 2, 0⟩ ⟨"b", 0, 1, 100⟩ (by decide) (by decide) (by decide) (by decide)
    (by decide) (by decide)

namespace Spec

/-- A `set` of a fresh key on a cache with room for it inserts exactly one
entry at the front of its tier and evicts nothing. -/
theorem set_fresh_single (m : Int) (hm : 1 ≤ m) (k : String) (v : Nat)
    (p t now : Int) :
    (newCache m).set k v p t now = ⟨m, [(p, [⟨k, v, p, t⟩])]⟩ := by
  have h1 : findEntry (newCache m) k = none := rfl
  rw [set_of_not_found h1]
  have h2 : (⟨(newCache m).maxItems, insertFront ⟨k, v, p, t⟩ (newCache m).tiers⟩ :
      PECache) = ⟨m, [(p, [⟨k, v, p, t⟩])]⟩ := rfl
  rw [h2]
  exact evictItems_of_le (by exact_mod_cast hm)

theorem findEntry_single (m : Int) (k : String) (v : Nat) (p t : Int) :
    findEntry ⟨m, [(p, [⟨k, v, p, t⟩])]⟩ k = some ⟨k, v, p, t⟩ := by
  simp [findEntry, allEntries, entriesT, List.find?]

theorem removeFromTiers_single (k : String) (v : Nat) (p t : Int) :
    removeFromTiers k [(p, [⟨k, v, p, t⟩])] = [] := by
  simp [removeFromTiers]

end Spec

/-- Claim C1 as stated is falsified by a concrete input: with capacity 0 the
eviction pass at the end of `set` immediately evicts the new entry, so
the immediate `get` with `now < t` returns not-found instead of the
value. -/
theorem spec_round_trip_counterexample :
    (0 : Int) < 10 ∧
    (((Spec.newCache 0).set "a" 1 5 10 0).get "a" 0).1 = none := by
  constructor
  · decide
  · decide

/-- Claim C1 (amended): on a freshly constructed cache with `maxItems ≥ 1`
(so the `set`'s eviction pass does not remove the new entry),
`set(key, value, p, t)` followed by `get(key, now)` with `now < t` returns
`value`; with `now ≥ t` it returns not-found and removes the entry. -/
theorem spec_round_trip_amended (m : Int) (hm : 1 ≤ m) (k : String) (v : Nat)
    (p t now0 now : Int) :
    (now < t →
      (((Spec.newCache m).set k v p t now0).get k now).1 = some v) ∧
    (t ≤ now →
      (((Spec.newCache m).set k v p t now0).get k now).1 = none ∧
      ((((Spec.newCache m).set k v p t now0).get k now).2.hasKey k) = false) := by
  rw [Spec.set_fresh_single m hm k v p t now0]
  have hget : (⟨m, [(p, [⟨k, v, p, t⟩])]⟩ : Spec.PECache).get k now =
      if t ≤ now then
        (none, ⟨m, Spec.removeFromTiers k [(p, [⟨k, v, p, t⟩])]⟩)
      else
        (some v, ⟨m, Spec.touchInTiers k [(p, [⟨k, v, p, t⟩])]⟩) := by
    unfold Spec.PECache.get
    rw [Spec.findEntry_single]
  rw [hget]
  constructor
  · intro hlt
    rw [if_neg (by omega)]
  · intro hge
    rw [if_pos hge]
    refine ⟨rfl, ?_⟩
    rw [Spec.removeFromTiers_single]
    rfl

/-- Witness for the amended C1 at concrete inputs, exercising both the live
hit and the lazy-expiry miss. -/
theorem spec_round_trip_amended_witness :
    ((((Spec.newCache 1).set "a" 7 2 10 0).get "a" 3).1 = some 7) ∧
    ((((Spec.newCache 1).set "a" 7 2 10 0).get "a" 10).1 = none ∧
     ((((Spec.newCache 1).set "a" 7 2 10 0).get "a" 10).2.hasKey "a") = false) :=
  ⟨(spec_round_trip_amended 1 (by decide) "a" 7 2 10 0 3).1 (by decide),
   (spec_round_trip_amended 1 (by decide) "a" 7 2 10 0 10).2 (by decide)⟩

/-- Claim C6: update-in-place — `set(x, ·, p1, ·)` then `set(x, ·, p2, ·)` on
a fresh cache with room leaves exactly one live entry for `x`, residing
in tier `p2`'s LRU list, while tier `p1` is gone (it held only `x`). -/
theorem spec_update_in_place (m : Int) (hm : 1 ≤ m) (x : String) (v1 v2 : Nat)
    (p1 p2 t1 t2 now1 now2 : Int) (hp : p1 ≠ p2) :
    Spec.allEntries (((Spec.newCache m).set x v1 p1 t1 now1).set x v2 p2 t2 now2) =
      [⟨x, v2, p2, t2⟩] ∧
    Spec.tierOf (((Spec.newCache m).set x v1 p1 t1 now1).set x v2 p2 t2 now2) p2 =
      some [⟨x, v2, p2, t2⟩] ∧
    Spec.tierOf (((Spec.newCache m).set x v1 p1 t1 now1).set x v2 p2 t2 now2) p1 =
      none := by
  rw [Spec.set_fresh_single m hm x v1 p1 t1 now1]
  have hset2 : (⟨m, [(p1, [⟨x, v1, p1, t1⟩])]⟩ : Spec.PECache).set x v2 p2 t2 now2 =
      ⟨m, [(p2, [⟨x, v2, p2, t2⟩])]⟩ := by
    rw [Spec.set_of_found _ (Spec.findEntry_single m x v1 p1 t1),
      Spec.removeFromTiers_single]
    have h2 : (⟨(⟨m, [(p1, [⟨x, v1, p1, t1⟩])]⟩ : Spec.PECache).maxItems,
        Spec.insertFront ⟨x, v2, p2, t2⟩ []⟩ : Spec.PECache) =
        ⟨m, [(p2, [⟨x, v2, p2, t2⟩])]⟩ := rfl
    rw [h2]
    exact Spec.evictItems_of_le (by exact_mod_cast hm)
  rw [hset2]
  refine ⟨rfl, ?_, ?_⟩
  · simp [Spec.tierOf]
  · have hne : (p2 == p1) = false := beq_eq_false_iff_ne.mpr (Ne.symm hp)
    simp [Spec.tierOf, hne, List.find?]

/-- Witness for C6 at a concrete input: priorities 1 then 5, as in the spec's
wording. -/
theorem spec_update_in_place_witness :
    Spec.allEntries (((Spec.newCache 1).set "x" 0 1 10 0).set "x" 9 5 20 0) =
      [⟨"x", 9, 5, 20⟩] ∧
    Spec.tierOf (((Spec.newCache 1).set "x" 0 1 10 0).set "x" 9 5 20 0) 5 =
      some [⟨"x", 9, 5, 20⟩] ∧
    Spec.tierOf (((Spec.newCache 1).set "x" 0 1 10 0).set "x" 9 5 20 0) 1 = none :=
  spec_update_in_place 1 (by decide) "x" 0 9 1 5 10 20 0 0 (by decide)

namespace Spec

/-- When the size exceeds the capacity by exactly one, `evictItems` performs
exactly one eviction step. -/
theorem evictItems_one (c : PECache) (now : Int) (h : (c.size : Int) = c.maxItems + 1) :
    c.evictItems now = evictOne c now := by
  unfold PECache.evictItems
  cases hsz : c.size with
  | zero =>
    rw [evictOne_of_empty hsz]
    rfl
  | succ n =>
    rw [evictLoop, if_neg (by omega)]
    apply evictLoop_of_le
    rw [size_evictOne (by omega) now, evictOne_maxItems]
    omega

/-- One `set` step for a fresh key whose result stays within capacity. -/
theorem set_fresh_step (c : PECache) (k : String) (v : Nat) (p t now : Int)
    (hf : findEntry c k = none) (ts' : List Tier)
    (hins : insertFront ⟨k, v, p, t⟩ c.tiers = ts')
    (hle : ((entriesT ts').length : Int) ≤ c.maxItems) :
    c.set k v p t now = ⟨c.maxItems, ts'⟩ := by
  rw [set_of_not_found hf]
  have h2 : (⟨c.maxItems, insertFront ⟨k, v, p, t⟩ c.tiers⟩ : PECache) =
      ⟨c.maxItems, ts'⟩ := by rw [hins]
  rw [h2]
  exact evictItems_of_le hle

end Spec

/-- Claim C5: get touches recency — after inserting unexpired entries A, B, C
into the same tier in that order, a successful `get(A)` moves A to the
front, so forcing a single eviction removes B (now least-recently-used),
not A. -/
theorem spec_get_touches_recency (m : Int) (hm : 3 ≤ m)
    (kA kB kC : String) (vA vB vC : Nat) (p tA tB tC now : Int)
    (hAB : kA ≠ kB) (hAC : kA ≠ kC) (hBC : kB ≠ kC)
    (htA : now < tA) (htB : now < tB) (htC : now < tC) :
    (((((Spec.newCache m).set kA vA p tA now).set kB vB p tB now).set kC vC p tC
        now).get kA now).1 = some vA ∧
    ((((((Spec.newCache m).set kA vA p tA now).set kB vB p tB now).set kC vC p tC
        now).get kA now).2.setMaxItems 2 now).hasKey kB = false ∧
    ((((((Spec.newCache m).set kA vA p tA now).set kB vB p tB now).set kC vC p tC
        now).get kA now).2.setMaxItems 2 now).hasKey kA = true ∧
    ((((((Spec.newCache m).set kA vA p tA now).set kB vB p tB now).set kC vC p tC
        now).get kA now).2.setMaxItems 2 now).hasKey kC = true := by
  have bAB : (kA == kB) = false := beq_eq_false_iff_ne.mpr hAB
  have bBA : (kB == kA) = false := beq_eq_false_iff_ne.mpr (Ne.symm hAB)
  have bAC : (kA == kC) = false := beq_eq_false_iff_ne.mpr hAC
  have bCA : (kC == kA) = false := beq_eq_false_iff_ne.mpr (Ne.symm hAC)
  have bBC : (kB == kC) = false := beq_eq_false_iff_ne.mpr hBC
  have bCB : (kC == kB) = false := beq_eq_false_iff_ne.mpr (Ne.symm hBC)
  have hs1 : (Spec.newCache m).set kA vA p tA now = ⟨m, [(p, [⟨kA, vA, p, tA⟩])]⟩ :=
    Spec.set_fresh_single m (by omega) kA vA p tA now
  have hf2 : Spec.findEntry ⟨m, [(p, [⟨kA, vA, p, tA⟩])]⟩ kB = none := by
    simp [Spec.findEntry, Spec.allEntries, Spec.entriesT, List.find?, bAB]
  have hs2 : (⟨m, [(p, [⟨kA, vA, p, tA⟩])]⟩ : Spec.PECache).set kB vB p tB now =
      ⟨m, [(p, [⟨kB, vB, p, tB⟩, ⟨kA, vA, p, tA⟩])]⟩ :=
    Spec.set_fresh_step _ kB vB p tB now hf2 _ (by simp [Spec.insertFront])
      (by show ((2 : Nat) : Int) ≤ m; omega)
  have hf3 : Spec.findEntry ⟨m, [(p, [⟨kB, vB, p, tB⟩, ⟨kA, vA, p, tA⟩])]⟩ kC = none := by
    simp [Spec.findEntry, Spec.allEntries, Spec.entriesT, List.find?, bAC, bBC]
  have hs3 : (⟨m, [(p, [⟨kB, vB, p, tB⟩, ⟨kA, vA, p, tA⟩])]⟩ : Spec.PECache).set
      kC vC p tC now =
      ⟨m, [(p, [⟨kC, vC, p, tC⟩, ⟨kB, vB, p, tB⟩, ⟨kA, vA, p, tA⟩])]⟩ :=
    Spec.set_fresh_step _ kC vC p tC now hf3 _ (by simp [Spec.insertFront])
      (by show ((3 : Nat) : Int) ≤ m; omega)
  have hfA : Spec.findEntry
      ⟨m, [(p, [⟨kC, vC, p, tC⟩, ⟨kB, vB, p, tB⟩, ⟨kA, vA, p, tA⟩])]⟩ kA =
      some ⟨kA, vA, p, tA⟩ := by
    simp [Spec.findEntry, Spec.allEntries, Spec.entriesT, List.find?, bCA, bBA]
  have htouch : Spec.touchInTiers kA
      [(p, [⟨kC, vC, p, tC⟩, ⟨kB, vB, p, tB⟩, ⟨kA, vA, p, tA⟩])] =
      [(p, [⟨kA, vA, p, tA⟩, ⟨kC, vC, p, tC⟩, ⟨kB, vB, p, tB⟩])] := by
    simp [Spec.touchInTiers, List.find?, bCA, bBA]
  have hget : (⟨m, [(p, [⟨kC, vC, p, tC⟩, ⟨kB, vB, p, tB⟩, ⟨kA, vA, p, tA⟩])]⟩ :
      Spec.PECache).get kA now =
      (some vA, ⟨m, [(p, [⟨kA, vA, p, tA⟩, ⟨kC, vC, p, tC⟩, ⟨kB, vB, p, tB⟩])]⟩) := by
    have hstep : (⟨m, [(p, [⟨kC, vC, p, tC⟩, ⟨kB, vB, p, tB⟩, ⟨kA, vA, p, tA⟩])]⟩ :
        Spec.PECache).get kA now =
        if tA ≤ now then
          (none, ⟨m, Spec.removeFromTiers kA
            [(p, [⟨kC, vC, p, tC⟩, ⟨kB, vB, p, tB⟩, ⟨kA, vA, p, tA⟩])]⟩)
        else
          (some vA, ⟨m, Spec.touchInTiers kA
            [(p, [⟨kC, vC, p, tC⟩, ⟨kB, vB, p, tB⟩, ⟨kA, vA, p, tA⟩])]⟩) := by
      unfold Spec.PECache.get
      rw [hfA]
    rw [hstep, if_neg (by omega), htouch]
  have hnoexp : ∀ e ∈ Spec.allEntries
      ⟨2, [(p, [⟨kA, vA, p, tA⟩, ⟨kC, vC, p, tC⟩, ⟨kB, vB, p, tB⟩])]⟩,
      now < e.expireAt := by
    intro e he
    simp [Spec.allEntries, Spec.entriesT] at he
    rcases he with rfl | rfl | rfl
    · exact htA
    · exact htC
    · exact htB
  have hvic : Spec.victimOfLowestTier
      ⟨2, [(p, [⟨kA, vA, p, tA⟩, ⟨kC, vC, p, tC⟩, ⟨kB, vB, p, tB⟩])]⟩ =
      some ⟨kB, vB, p, tB⟩ := rfl
  have hrm : Spec.removeFromTiers kB
      [(p, [⟨kA, vA, p, tA⟩, ⟨kC, vC, p, tC⟩, ⟨kB, vB, p, tB⟩])] =
      [(p, [⟨kA, vA, p, tA⟩, ⟨kC, vC, p, tC⟩])] := by
    simp [Spec.removeFromTiers, List.eraseP, bAB, bCB]
  have hsmi : (⟨m, [(p, [⟨kA, vA, p, tA⟩, ⟨kC, vC, p, tC⟩, ⟨kB, vB, p, tB⟩])]⟩ :
      Spec.PECache).setMaxItems 2 now =
      ⟨2, [(p, [⟨kA, vA, p, tA⟩, ⟨kC, vC, p, tC⟩])]⟩ := by
    show Spec.PECache.evictItems
      ⟨2, [(p, [⟨kA, vA, p, tA⟩, ⟨kC, vC, p, tC⟩, ⟨kB, vB, p, tB⟩])]⟩ now = _
    rw [Spec.evictItems_one _ now (by show ((3 : Nat) : Int) = 2 + 1; decide)]
    rw [Spec.evictOne_not_expired hnoexp hvic (by simp [Spec.allEntries, Spec.entriesT])]
    rw [hrm]
  rw [hs1, hs2, hs3, hget]
  simp only []
  rw [hsmi]
  refine ⟨trivial, ?_, ?_, ?_⟩
  · simp [Spec.PECache.hasKey, Spec.findEntry, Spec.allEntries, Spec.entriesT,
      List.find?, bAB, bCB]
  · simp [Spec.PECache.hasKey, Spec.findEntry, Spec.allEntries, Spec.entriesT,
      List.find?]
  · simp [Spec.PECache.hasKey, Spec.findEntry, Spec.allEntries, Spec.entriesT,
      List.find?, bAC]

/-- Witness for C5 at concrete inputs: keys "a","b","c" in tier 1, get "a",
then one forced eviction removes "b". -/
theorem spec_get_touches_recency_witness :
    (((((Spec.newCache 3).set "a" 1 1 10 0).set "b" 2 1 10 0).set "c" 3 1 10
        0).get "a" 0).1 = some 1 ∧
    ((((((Spec.newCache 3).set "a" 1 1 10 0).set "b" 2 1 10 0).set "c" 3 1 10
        0).get "a" 0).2.setMaxItems 2 0).hasKey "b" = false ∧
    ((((((Spec.newCache 3).set "a" 1 1 10 0).set "b" 2 1 10 0).set "c" 3 1 10
        0).get "a" 0).2.setMaxItems 2 0).hasKey "a" = true ∧
    ((((((Spec.newCache 3).set "a" 1 1 10 0).set "b" 2 1 10 0).set "c" 3 1 10
        0).get "a" 0).2.setMaxItems 2 0).hasKey "c" = true :=
  spec_get_touches_recency 3 (by decide) "a" "b" "c" 1 2 3 1 10 10 10 0
    (by decide) (by decide) (by decide) (by decide) (by decide) (by decide)

/-- Claim C4: LRU within the lowest tier — entries A, B, C inserted in that
order into the lowest priority tier `p` (a bystander D lives in a higher
tier `q`), none accessed afterward and none expired: three successive
single evictions remove A first, then B, then C, never touching D. -/
theorem spec_lru_within_tier (m : Int) (hm : 4 ≤ m)
    (kA kB kC kD : String) (vA vB vC vD : Nat) (p q tA tB tC tD now : Int)
    (hpq : p < q)
    (hAB : kA ≠ kB) (hAC : kA ≠ kC) (hAD : kA ≠ kD)
    (hBC : kB ≠ kC) (hBD : kB ≠ kD) (hCD : kC ≠ kD)
    (htA : now < tA) (htB : now < tB) (htC : now < tC) (htD : now < tD)
    (s1 s2 s3 : Spec.PECache)
    (hs1 : s1 = (((((Spec.newCache m).set kD vD q tD now).set kA vA p tA now).set
        kB vB p tB now).set kC vC p tC now).setMaxItems 3 now)
    (hs2 : s2 = s1.setMaxItems 2 now)
    (hs3 : s3 = s2.setMaxItems 1 now) :
    (s1.hasKey kA = false ∧ s1.hasKey kB = true ∧ s1.hasKey kC = true ∧
      s1.hasKey kD = true) ∧
    (s2.hasKey kB = false ∧ s2.hasKey kC = true ∧ s2.hasKey kD = true) ∧
    (s3.hasKey kC = false ∧ s3.hasKey kD = true) := by
  have bqp : (q == p) = false := beq_eq_false_iff_ne.mpr (by omega)
  have bDA : (kD == kA) = false := beq_eq_false_iff_ne.mpr (Ne.symm hAD)
  have bDB : (kD == kB) = false := beq_eq_false_iff_ne.mpr (Ne.symm hBD)
  have bDC : (kD == kC) = false := beq_eq_false_iff_ne.mpr (Ne.symm hCD)
  have bAB : (kA == kB) = false := beq_eq_false_iff_ne.mpr hAB
  have bAC : (kA == kC) = false := beq_eq_false_iff_ne.mpr hAC
  have bBC : (kB == kC) = false := beq_eq_false_iff_ne.mpr hBC
  have bBA : (kB == kA) = false := beq_eq_false_iff_ne.mpr (Ne.symm hAB)
  have bCA : (kC == kA) = false := beq_eq_false_iff_ne.mpr (Ne.symm hAC)
  have bCB : (kC == kB) = false := beq_eq_false_iff_ne.mpr (Ne.symm hBC)
  have hc1 : (Spec.newCache m).set kD vD q tD now = ⟨m, [(q, [⟨kD, vD, q, tD⟩])]⟩ :=
    Spec.set_fresh_single m (by omega) kD vD q tD now
  have hf2 : Spec.findEntry ⟨m, [(q, [⟨kD, vD, q, tD⟩])]⟩ kA = none := by
    simp [Spec.findEntry, Spec.allEntries, Spec.entriesT, List.find?, bDA]
  have hc2 : (⟨m, [(q, [⟨kD, vD, q, tD⟩])]⟩ : Spec.PECache).set kA vA p tA now =
      ⟨m, [(q, [⟨kD, vD, q, tD⟩]), (p, [⟨kA, vA, p, tA⟩])]⟩ :=
    Spec.set_fresh_step _ kA vA p tA now hf2 _ (by simp [Spec.insertFront, bqp])
      (by show ((2 : Nat) : Int) ≤ m; omega)
  have hf3 : Spec.findEntry ⟨m, [(q, [⟨kD, vD, q, tD⟩]), (p, [⟨kA, vA, p, tA⟩])]⟩
      kB = none := by
    simp [Spec.findEntry, Spec.allEntries, Spec.entriesT, List.find?, bDB, bAB]
  have hc3 : (⟨m, [(q, [⟨kD, vD, q, tD⟩]), (p, [⟨kA, vA, p, tA⟩])]⟩ :
      Spec.PECache).set kB vB p tB now =
      ⟨m, [(q, [⟨kD, vD, q, tD⟩]), (p, [⟨kB, vB, p, tB⟩, ⟨kA, vA, p, tA⟩])]⟩ :=
    Spec.set_fresh_step _ kB vB p tB now hf3 _ (by simp [Spec.insertFront, bqp])
      (by show ((3 : Nat) : Int) ≤ m; omega)
  have hf4 : Spec.findEntry ⟨m, [(q, [⟨kD, vD, q, tD⟩]),
      (p, [⟨kB, vB, p, tB⟩, ⟨kA, vA, p, tA⟩])]⟩ kC = none := by
    simp [Spec.findEntry, Spec.allEntries, Spec.entriesT, List.find?, bDC, bBC, bAC]
  have hc4 : (⟨m, [(q, [⟨kD, vD, q, tD⟩]),
      (p, [⟨kB, vB, p, tB⟩, ⟨kA, vA, p, tA⟩])]⟩ : Spec.PECache).set kC vC p tC now =
      ⟨m, [(q, [⟨kD, vD, q, tD⟩]),
        (p, [⟨kC, vC, p, tC⟩, ⟨kB, vB, p, tB⟩, ⟨kA, vA, p, tA⟩])]⟩ :=
    Spec.set_fresh_step _ kC vC p tC now hf4 _ (by simp [Spec.insertFront, bqp])
      (by show ((4 : Nat) : Int) ≤ m; omega)
  have hnoexp1 : ∀ e ∈ Spec.allEntries ⟨3, [(q, [⟨kD, vD, q, tD⟩]),
      (p, [⟨kC, vC, p, tC⟩, ⟨kB, vB, p, tB⟩, ⟨kA, vA, p, tA⟩])]⟩,
      now < e.expireAt := by
    intro e he
    simp [Spec.allEntries, Spec.entriesT] at he
    rcases he with rfl | rfl | rfl | rfl
    · exact htD
    · exact htC
    · exact htB
    · exact htA
  have hvic1 : Spec.victimOfLowestTier ⟨3, [(q, [⟨kD, vD, q, tD⟩]),
      (p, [⟨kC, vC, p, tC⟩, ⟨kB, vB, p, tB⟩, ⟨kA, vA, p, tA⟩])]⟩ =
      some ⟨kA, vA, p, tA⟩ := by
    simp [Spec.victimOfLowestTier, List.filter, hpq]
  have hrm1 : Spec.removeFromTiers kA [(q, [⟨kD, vD, q, tD⟩]),
      (p, [⟨kC, vC, p, tC⟩, ⟨kB, vB, p, tB⟩, ⟨kA, vA, p, tA⟩])] =
      [(q, [⟨kD, vD, q, tD⟩]), (p, [⟨kC, vC, p, tC⟩, ⟨kB, vB, p, tB⟩])] := by
    simp [Spec.removeFromTiers, List.eraseP, bDA, bCA, bBA]
  have hstep1 : s1 = ⟨3, [(q, [⟨kD, vD, q, tD⟩]),
      (p, [⟨kC, vC, p, tC⟩, ⟨kB, vB, p, tB⟩])]⟩ := by
    rw [hs1, hc1, hc2, hc3, hc4]
    show Spec.PECache.evictItems ⟨3, [(q, [⟨kD, vD, q, tD⟩]),
      (p, [⟨kC, vC, p, tC⟩, ⟨kB, vB, p, tB⟩, ⟨kA, vA, p, tA⟩])]⟩ now = _
    rw [Spec.evictItems_one _ now (by show ((4 : Nat) : Int) = 3 + 1; decide)]
    rw [Spec.evictOne_not_expired hnoexp1 hvic1
      (by simp [Spec.allEntries, Spec.entriesT])]
    rw [hrm1]
  have hnoexp2 : ∀ e ∈ Spec.allEntries ⟨2, [(q, [⟨kD, vD, q, tD⟩]),
      (p, [⟨kC, vC, p, tC⟩, ⟨kB, vB, p, tB⟩])]⟩, now < e.expireAt := by
    intro e he
    simp [Spec.allEntries, Spec.entriesT] at he
    rcases he with rfl | rfl | rfl
    · exact htD
    · exact htC
    · exact htB
  have hvic2 : Spec.victimOfLowestTier ⟨2, [(q, [⟨kD, vD, q, tD⟩]),
      (p, [⟨kC, vC, p, tC⟩, ⟨kB, vB, p, tB⟩])]⟩ = some ⟨kB, vB, p, tB⟩ := by
    simp [Spec.victimOfLowestTier, List.filter, hpq]
  have hrm2 : Spec.removeFromTiers kB [(q, [⟨kD, vD, q, tD⟩]),
      (p, [⟨kC, vC, p, tC⟩, ⟨kB, vB, p, tB⟩])] =
      [(q, [⟨kD, vD, q, tD⟩]), (p, [⟨kC, vC, p, tC⟩])] := by
    simp [Spec.removeFromTiers, List.eraseP, bDB, bCB]
  have hstep2 : s2 = ⟨2, [(q, [⟨kD, vD, q, tD⟩]), (p, [⟨kC, vC, p, tC⟩])]⟩ := by
    rw [hs2, hstep1]
    show Spec.PECache.evictItems ⟨2, [(q, [⟨kD, vD, q, tD⟩]),
      (p, [⟨kC, vC, p, tC⟩, ⟨kB, vB, p, tB⟩])]⟩ now = _
    rw [Spec.evictItems_one _ now (by show ((3 : Nat) : Int) = 2 + 1; decide)]
    rw [Spec.evictOne_not_expired hnoexp2 hvic2
      (by simp [Spec.allEntries, Spec.entriesT])]
    rw [hrm2]
  have hnoexp3 : ∀ e ∈ Spec.allEntries ⟨1, [(q, [⟨kD, vD, q, tD⟩]),
      (p, [⟨kC, vC, p, tC⟩])]⟩, now < e.expireAt := by
    intro e he
    simp [Spec.allEntries, Spec.entriesT] at he
    rcases he with rfl | rfl
    · exact htD
    · exact htC
  have hvic3 : Spec.victimOfLowestTier ⟨1, [(q, [⟨kD, vD, q, tD⟩]),
      (p, [⟨kC, vC, p, tC⟩])]⟩ = some ⟨kC, vC, p, tC⟩ := by
    simp [Spec.victimOfLowestTier, List.filter, hpq]
  have hrm3 : Spec.removeFromTiers kC [(q, [⟨kD, vD, q, tD⟩]),
      (p, [⟨kC, vC, p, tC⟩])] = [(q, [⟨kD, vD, q, tD⟩])] := by
    simp [Spec.removeFromTiers, List.eraseP, bDC]
  have hstep3 : s3 = ⟨1, [(q, [⟨kD, vD, q, tD⟩])]⟩ := by
    rw [hs3, hstep2]
    show Spec.PECache.evictItems ⟨1, [(q, [⟨kD, vD, q, tD⟩]),
      (p, [⟨kC, vC, p, tC⟩])]⟩ now = _
    rw [Spec.evictItems_one _ now (by show ((2 : Nat) : Int) = 1 + 1; decide)]
    rw [Spec.evictOne_not_expired hnoexp3 hvic3
      (by simp [Spec.allEntries, Spec.entriesT])]
    rw [hrm3]
  rw [hstep1, hstep2, hstep3]
  refine ⟨⟨?_, ?_, ?_, ?_⟩, ⟨?_, ?_, ?_⟩, ⟨?_, ?_⟩⟩ <;>
    simp [Spec.PECache.hasKey, Spec.findEntry, Spec.allEntries, Spec.entriesT,
      List.find?, bDA, bDB, bDC, bCA, bCB, bBA]

/-- Witness for C4 at concrete inputs: "a","b","c" in tier 1, "d" in tier 2,
evictions at capacities 3, 2, 1 remove "a", then "b", then "c". -/
theorem spec_lru_within_tier_witness :
    (((((((Spec.newCache 4).set "d" 4 2 10 0).set "a" 1 1 10 0).set "b" 2 1 10
          0).set "c" 3 1 10 0).setMaxItems 3 0).hasKey "a" = false ∧
      ((((((Spec.newCache 4).set "d" 4 2 10 0).set "a" 1 1 10 0).set "b" 2 1 10
          0).set "c" 3 1 10 0).setMaxItems 3 0).hasKey "b" = true ∧
      ((((((Spec.newCache 4).set "d" 4 2 10 0).set "a" 1 1 10 0).set "b" 2 1 10
          0).set "c" 3 1 10 0).setMaxItems 3 0).hasKey "c" = true ∧
      ((((((Spec.newCache 4).set "d" 4 2 10 0).set "a" 1 1 10 0).set "b" 2 1 10
          0).set "c" 3 1 10 0).setMaxItems 3 0).hasKey "d" = true) ∧
    ((((((((Spec.newCache 4).set "d" 4 2 10 0).set "a" 1 1 10 0).set "b" 2 1 10
          0).set "c" 3 1 10 0).setMaxItems 3 0).setMaxItems 2 0).hasKey "b" = false ∧
      (((((((Spec.newCache 4).set "d" 4 2 10 0).set "a" 1 1 10 0).set "b" 2 1 10
          0).set "c" 3 1 10 0).setMaxItems 3 0).setMaxItems 2 0).hasKey "c" = true ∧
      (((((((Spec.newCache 4).set "d" 4 2 10 0).set "a" 1 1 10 0).set "b" 2 1 10
          0).set "c" 3 1 10 0).setMaxItems 3 0).setMaxItems 2 0).hasKey "d" = true) ∧
    ((((((((((Spec.newCache 4).set "d" 4 2 10 0).set "a" 1 1 10 0).set "b" 2 1 10
          0).set "c" 3 1 10 0).setMaxItems 3 0).setMaxItems 2 0).setMaxItems 1
          0).hasKey "c") = false ∧
      (((((((((Spec.newCache 4).set "d" 4 2 10 0).set "a" 1 1 10 0).set "b" 2 1 10
          0).set "c" 3 1 10 0).setMaxItems 3 0).setMaxItems 2 0).setMaxItems 1
          0).hasKey "d") = true) :=
  spec_lru_within_tier 4 (by decide) "a" "b" "c" "d" 1 2 3 4 1 2 10 10 10 10 0
    (by decide) (by decide) (by decide) (by decide) (by decide) (by decide)
    (by decide) (by decide) (by decide) (by decide) (by decide)
    ((((((Spec.newCache 4).set "d" 4 2 10 0).set "a" 1 1 10 0).set "b" 2 1 10
        0).set "c" 3 1 10 0).setMaxItems 3 0)
    (((((((Spec.newCache 4).set "d" 4 2 10 0).set "a" 1 1 10 0).set "b" 2 1 10
        0).set "c" 3 1 10 0).setMaxItems 3 0).setMaxItems 2 0)
    ((((((((Spec.newCache 4).set "d" 4 2 10 0).set "a" 1 1 10 0).set "b" 2 1 10
        0).set "c" 3 1 10 0).setMaxItems 3 0).setMaxItems 2 0).setMaxItems 1 0)
    rfl rfl rfl
